import Mathlib

/-!
Shallow embedding of the Splitwise expense-sharing program (`app.py`) and
verification of its specification.

Modelling conventions:
* `Decimal` amounts are modelled as exact rationals (`ℚ`).  Every operation the
  program performs on amounts (addition, subtraction, multiplication, division,
  comparison with the `0.01` tolerance) is exact decimal arithmetic at the
  magnitudes the program handles, so `ℚ` is a faithful model.
* Python's built-in `round` on a `Decimal` rounds half to even; `roundHalfEven`
  below reproduces it.
* Python `dict`s are modelled as association lists (`List (String × α)`) with
  the same observable behaviour: lookup finds the entry for a key, assignment
  updates an existing entry in place or appends a fresh one at the end, which
  also preserves the dict's insertion order.
* Exceptions raised by the program (`KeyError` on a missing dict key, the
  decimal division-by-zero / invalid-operation error raised by `x / 0`) are
  modelled by the `PyError` type.  `ExpenseManager.add_expense` returns the
  state it has built up at the moment an exception propagates, because the
  Python object keeps every mutation performed before the raise.
* `ExpenseService.create_expense` dispatches by comparing its first argument
  with the three `ExpenseType` enum members and falls through to `return None`
  for any other value; the argument is therefore modelled as
  `Option ExpenseType`, where `none` stands for any value outside the enum.
-/

namespace Splitwise

/-- The `ExpenseType` enum of the program: `EQUAL`, `EXACT`, `PERCENT`. -/
inductive ExpenseType : Type
  | EQUAL
  | EXACT
  | PERCENT
deriving DecidableEq

/-- Tag distinguishing the `Split` subclasses `EqualSplit`, `ExactSplit`,
`PercentSplit`; `isinstance (split, C)` is modelled as a tag comparison. -/
inductive SplitKind : Type
  | equal
  | exact
  | percent
deriving DecidableEq

/-- The `User` dataclass: `{id, name, email, phone}`. -/
structure User : Type where
  id : String
  name : String
  email : String
  phone : String
deriving DecidableEq

/-- The `ExpenseMetadata` dataclass: `{name, img_url, notes}`. -/
structure ExpenseMetadata : Type where
  name : String
  img_url : String
  notes : String
deriving DecidableEq

/-- A `Split` object.  The base class holds `user` and `amount`
(defaulting to `0`); the subclass is recorded in `kind`, and the
`PercentSplit` subclass adds the `percent` field (`0` elsewhere). -/
structure Split : Type where
  user : User
  kind : SplitKind
  amount : ℚ
  percent : ℚ
deriving DecidableEq

/-- `EqualSplit(user)`: amount starts at the base-class default `0`. -/
def mkEqualSplit (u : User) : Split :=
  { user := u, kind := SplitKind.equal, amount := 0, percent := 0 }

/-- `ExactSplit(user, amount)`. -/
def mkExactSplit (u : User) (amount : ℚ) : Split :=
  { user := u, kind := SplitKind.exact, amount := amount, percent := 0 }

/-- `PercentSplit(user, percent)`: the base-class `amount` starts at `0`. -/
def mkPercentSplit (u : User) (percent : ℚ) : Split :=
  { user := u, kind := SplitKind.percent, amount := 0, percent := percent }

/-- An `Expense` object.  The concrete subclass (`EqualExpense`,
`ExactExpense`, `PercentExpense`) is recorded in the `etype` tag. -/
structure Expense : Type where
  etype : ExpenseType
  amount : ℚ
  paid_by : User
  splits : List Split
  metadata : Option ExpenseMetadata
deriving DecidableEq

/-- `sum(split.amount for split in splits)`. -/
def sumAmounts (splits : List Split) : ℚ :=
  (splits.map Split.amount).sum

/-- `sum(split.percent for split in splits)`. -/
def sumPercents (splits : List Split) : ℚ :=
  (splits.map Split.percent).sum

/-- The `validate` method of the three `Expense` subclasses:
* `EqualExpense.validate`: all splits are `EqualSplit`s;
* `ExactExpense.validate`: all splits are `ExactSplit`s and
  `abs(sum(amounts) - self.amount) < Decimal('0.01')`;
* `PercentExpense.validate`: all splits are `PercentSplit`s and
  `abs(sum(percents) - Decimal('100')) < Decimal('0.01')`. -/
def validate (e : Expense) : Bool :=
  match e.etype with
  | ExpenseType.EQUAL => e.splits.all fun sp => sp.kind == SplitKind.equal
  | ExpenseType.EXACT =>
      (e.splits.all fun sp => sp.kind == SplitKind.exact)
        && decide (|sumAmounts e.splits - e.amount| < 1/100)
  | ExpenseType.PERCENT =>
      (e.splits.all fun sp => sp.kind == SplitKind.percent)
        && decide (|sumPercents e.splits - 100| < 1/100)

/-- `return expense if expense.validate() else None`. -/
def acceptIfValid (e : Expense) : Option Expense :=
  if validate e then some e else none

/-- Python's built-in `round` on a `Decimal` with no digit argument:
round to the nearest integer, ties to the even integer. -/
def roundHalfEven (q : ℚ) : ℤ :=
  if q - ⌊q⌋ < 1/2 then ⌊q⌋
  else if 1/2 < q - ⌊q⌋ then ⌊q⌋ + 1
  else if ⌊q⌋ % 2 = 0 then ⌊q⌋ else ⌊q⌋ + 1

/-- `split_amount = round((amount * Decimal('100')) / total_splits) / Decimal('100')`
in the `EQUAL` branch of `ExpenseService.create_expense`. -/
def eqShare (amount : ℚ) (n : ℕ) : ℚ :=
  ((roundHalfEven (amount * 100 / (n : ℚ)) : ℤ) : ℚ) / 100

/-- The `EQUAL` branch of `ExpenseService.create_expense` on a non-empty split
list: every split's `amount` is set to the rounded equal share, then
`splits[0].amount += amount - (split_amount * total_splits)`. -/
def equalSplits (amount : ℚ) (splits : List Split) : List Split :=
  match splits with
  | [] => []
  | first :: rest =>
      let split_amount := eqShare amount (first :: rest).length
      { first with
          amount := split_amount + (amount - split_amount * ((first :: rest).length : ℚ)) }
        :: rest.map fun sp => { sp with amount := split_amount }

/-- The `PERCENT` branch of `ExpenseService.create_expense`:
`split.amount = (amount * split.percent) / Decimal('100')` for every split
that is a `PercentSplit` (others are left untouched). -/
def percentSplits (amount : ℚ) (splits : List Split) : List Split :=
  splits.map fun sp =>
    if sp.kind = SplitKind.percent then { sp with amount := amount * sp.percent / 100 }
    else sp

/-- Exceptions the program can raise on the modelled paths:
`KeyError` from a missing dict key, and the decimal error raised by dividing
by a zero split count (Python raises `decimal.DivisionByZero`, or
`decimal.InvalidOperation` when the amount is also `0`; both are uncaught
exceptions and are not distinguished by any claim). -/
inductive PyError : Type
  | keyError
  | divisionByZero
deriving DecidableEq

/-- `ExpenseService.create_expense`.  `none` as the first argument stands for
any value outside the `ExpenseType` enum (the trailing `else: return None`).
The result is `Except.error` when the call raises, otherwise `Except.ok` of
the `Optional[Expense]` the Python function returns. -/
def create_expense (expense_type : Option ExpenseType) (amount : ℚ) (paid_by : User)
    (splits : List Split) (metadata : Option ExpenseMetadata) :
    Except PyError (Option Expense) :=
  match expense_type with
  | some ExpenseType.EXACT =>
      Except.ok (acceptIfValid
        { etype := ExpenseType.EXACT, amount := amount, paid_by := paid_by,
          splits := splits, metadata := metadata })
  | some ExpenseType.PERCENT =>
      Except.ok (acceptIfValid
        { etype := ExpenseType.PERCENT, amount := amount, paid_by := paid_by,
          splits := percentSplits amount splits, metadata := metadata })
  | some ExpenseType.EQUAL =>
      match splits with
      | [] => Except.error PyError.divisionByZero
      | first :: rest =>
          Except.ok (acceptIfValid
            { etype := ExpenseType.EQUAL, amount := amount, paid_by := paid_by,
              splits := equalSplits amount (first :: rest), metadata := metadata })
  | none => Except.ok none

/-- `d[k]` on a Python dict, as an association-list lookup. -/
def lookupA {α : Type} (k : String) : List (String × α) → Option α
  | [] => none
  | (k', v) :: rest => if k = k' then some v else lookupA k rest

/-- `d[k] = v` on a Python dict: update the existing entry in place, or
append a fresh entry at the end (preserving insertion order). -/
def setA {α : Type} (k : String) (v : α) : List (String × α) → List (String × α)
  | [] => [(k, v)]
  | (k', v') :: rest => if k = k' then (k', v) :: rest else (k', v') :: setA k v rest

/-- `if k not in row: row[k] = Decimal('0')` followed by `row[k] += d`. -/
def bumpRow (row : List (String × ℚ)) (k : String) (d : ℚ) : List (String × ℚ) :=
  setA k ((lookupA k row).getD 0 + d) row

/-- The state of an `ExpenseManager` object: `expenses`, `user_map`,
`balance_sheet`. -/
structure MState : Type where
  expenses : List Expense
  user_map : List (String × User)
  balance_sheet : List (String × List (String × ℚ))
deriving DecidableEq

/-- `ExpenseManager.__init__`. -/
def initState : MState :=
  { expenses := [], user_map := [], balance_sheet := [] }

/-- The balance row of user `a` (`balance_sheet[a]`, empty if absent). -/
def rowOf (s : MState) (a : String) : List (String × ℚ) :=
  (lookupA a s.balance_sheet).getD []

/-- `balance_sheet[a][b]` read as a value, `0` when the entry is absent. -/
def getBal (s : MState) (a b : String) : ℚ :=
  (lookupA b (rowOf s a)).getD 0

/-- `ExpenseManager.add_user`: `user_map[user.id] = user` and
`balance_sheet[user.id] = {}` (unconditionally). -/
def add_user (s : MState) (u : User) : MState :=
  { s with
      user_map := setA u.id u s.user_map,
      balance_sheet := setA u.id ([] : List (String × ℚ)) s.balance_sheet }

/-- Outcome of a call to `ExpenseManager.add_expense`: normal return after
committing (`ok`), normal return after printing `"Invalid expense"`
(`invalid`), or an exception propagating out (`raised`). -/
inductive AddOutcome : Type
  | ok
  | invalid
  | raised (e : PyError)
deriving DecidableEq

/-- The balance-update loop of `ExpenseManager.add_expense`: for each split,
`balance_sheet[paid_by][paid_to] += split.amount` then
`balance_sheet[paid_to][paid_by] -= split.amount`, creating missing entries
at `0` first.  Accessing `balance_sheet[k]` for an unregistered `k` raises
`KeyError`, leaving all previous iterations' mutations in place. -/
def applyLoop (paid_by : String) : MState → List Split → MState × AddOutcome
  | s, [] => (s, AddOutcome.ok)
  | s, sp :: rest =>
      match lookupA paid_by s.balance_sheet with
      | none => (s, AddOutcome.raised PyError.keyError)
      | some rowp =>
          match lookupA sp.user.id (setA paid_by (bumpRow rowp sp.user.id sp.amount) s.balance_sheet) with
          | none =>
              ({ s with balance_sheet := setA paid_by (bumpRow rowp sp.user.id sp.amount) s.balance_sheet },
                AddOutcome.raised PyError.keyError)
          | some rowt =>
              applyLoop paid_by
                { s with balance_sheet := setA sp.user.id (bumpRow rowt paid_by (-sp.amount))
                                            (setA paid_by (bumpRow rowp sp.user.id sp.amount) s.balance_sheet) }
                rest

/-- `ExpenseManager.add_expense`: look up the payer in `user_map` (raising
`KeyError` if absent), delegate to the factory, print `"Invalid expense"` and
return on `None`, otherwise append the expense to the log and run the
balance-update loop.  Returns the manager state as left by the call together
with the call's outcome. -/
def add_expense (s : MState) (expense_type : Option ExpenseType) (amount : ℚ)
    (paid_by : String) (splits : List Split) (metadata : Option ExpenseMetadata) :
    MState × AddOutcome :=
  match lookupA paid_by s.user_map with
  | none => (s, AddOutcome.raised PyError.keyError)
  | some payer =>
      match create_expense expense_type amount payer splits metadata with
      | Except.error e => (s, AddOutcome.raised e)
      | Except.ok none => (s, AddOutcome.invalid)
      | Except.ok (some exp) =>
          applyLoop paid_by { s with expenses := s.expenses ++ [exp] } exp.splits

/-- One core operation, for describing reachable ledger states. -/
inductive Op : Type
  | addUser (u : User)
  | addExpense (expense_type : Option ExpenseType) (amount : ℚ) (paid_by : String)
      (splits : List Split) (metadata : Option ExpenseMetadata)

/-- Run one operation, keeping the manager state it leaves behind (the
interactive loop catches and reports any exception and carries on with the
same manager object). -/
def run_op (s : MState) : Op → MState
  | Op.addUser u => add_user s u
  | Op.addExpense t amount paid_by splits md => (add_expense s t amount paid_by splits md).1

/-- The manager state after a sequence of operations from a fresh manager. -/
def runOps (ops : List Op) : MState :=
  ops.foldl run_op initState

/-- The global branch of `ExpenseManager.show_balance` (no user argument):
the `(user1, user2, amount)` triples it passes to `_print_balance`, i.e.
every strictly positive entry of the balance sheet in iteration order.
The code prints `"No balances"` exactly when this list is empty. -/
def show_balance_global (s : MState) : List (String × String × ℚ) :=
  (s.balance_sheet.map fun p =>
    (p.2.filter fun q => decide (0 < q.2)).map fun q => (p.1, q.1, q.2)).flatten

/-- Well-formedness every Python-dict-backed state has by construction:
keys are unique in the balance sheet and in each of its rows. -/
def wfState (s : MState) : Prop :=
  (s.balance_sheet.map Prod.fst).Nodup ∧
    ∀ p ∈ s.balance_sheet, (p.2.map Prod.fst).Nodup

/-- The ledger-antisymmetry property, read with absent entries as `0`. -/
def antisymmetric (s : MState) : Prop :=
  ∀ a b, getBal s a b = - getBal s b a

/-- Net amount the balance-update loop adds to the payer's entry against
user `u`: the sum of the amounts of the splits whose participant is `u`. -/
def sumFor (u : String) (splits : List Split) : ℚ :=
  (splits.map fun sp => if sp.user.id = u then sp.amount else 0).sum

/-- The four users registered by `main`. -/
def u1 : User := { id := "u1", name := "User1", email := "user1@example.com", phone := "9876543210" }

/-- Second user registered by `main`. -/
def u2 : User := { id := "u2", name := "User2", email := "user2@example.com", phone := "9876543210" }

/-- Third user registered by `main`. -/
def u3 : User := { id := "u3", name := "User3", email := "user3@example.com", phone := "9876543210" }

/-- A concrete operation sequence from a fresh manager: register `u1` and
`u2`, record an accepted exact expense of `10` paid by `u1` for `u2`, then
call `add_user` again with `u2` (re-registration). -/
def opsRereg : List Op :=
  [Op.addUser u1, Op.addUser u2,
   Op.addExpense (some ExpenseType.EXACT) 10 "u1" [mkExactSplit u2 10] none,
   Op.addUser u2]

/-! ### Association-list and balance-update lemmas -/

theorem lookupA_setA_self {α : Type} (k : String) (v : α) (l : List (String × α)) :
    lookupA k (setA k v l) = some v := by
  induction l with
  | nil => simp [setA, lookupA]
  | cons p rest ih =>
      by_cases h : k = p.1
      · simp [setA, lookupA, h]
      · simp [setA, lookupA, h, ih]

theorem lookupA_setA_ne {α : Type} {k k' : String} (h : k ≠ k') (v : α)
    (l : List (String × α)) : lookupA k (setA k' v l) = lookupA k l := by
  induction l with
  | nil => simp [setA, lookupA, h]
  | cons p rest ih =>
      by_cases h' : k' = p.1
      · subst h'
        simp [setA, lookupA, h]
      · by_cases h'' : k = p.1 <;> simp [setA, lookupA, h', h'', ih]

theorem lookupA_setA {α : Type} (k k' : String) (v : α) (l : List (String × α)) :
    lookupA k (setA k' v l) = if k = k' then some v else lookupA k l := by
  by_cases h : k = k'
  · subst h; simp [lookupA_setA_self]
  · simp [h, lookupA_setA_ne h]

theorem lookupA_bumpRow (row : List (String × ℚ)) (k k' : String) (d : ℚ) :
    lookupA k' (bumpRow row k d) =
      if k' = k then some ((lookupA k row).getD 0 + d) else lookupA k' row := by
  simp [bumpRow, lookupA_setA]

theorem isSome_lookupA_setA_of_isSome {α : Type} {k0 : String} {l : List (String × α)}
    (h : (lookupA k0 l).isSome = true) (v : α) (k : String) :
    (lookupA k (setA k0 v l)).isSome = (lookupA k l).isSome := by
  by_cases hk : k = k0
  · subst hk; simp [lookupA_setA_self, h]
  · simp [lookupA_setA_ne hk]

theorem getBal_pair_step (s : MState) (pb u : String) (x : ℚ)
    (rowp rowt : List (String × ℚ))
    (hrowp : lookupA pb s.balance_sheet = some rowp)
    (hrowt : lookupA u (setA pb (bumpRow rowp u x) s.balance_sheet) = some rowt)
    (a b : String) :
    getBal { s with balance_sheet := setA u (bumpRow rowt pb (-x))
                                       (setA pb (bumpRow rowp u x) s.balance_sheet) } a b
      = getBal s a b + (if a = pb ∧ b = u then x else 0)
          - (if a = u ∧ b = pb then x else 0) := by
  simp only [getBal, rowOf]
  by_cases hupb : u = pb
  · subst hupb
    rw [lookupA_setA_self] at hrowt
    injection hrowt with hr
    subst hr
    by_cases hau : a = u
    · subst hau
      by_cases hba : b = a
      · subst hba
        simp [lookupA_setA, lookupA_bumpRow, hrowp]
      · simp [lookupA_setA, lookupA_bumpRow, hrowp, hba]
    · simp [lookupA_setA, lookupA_bumpRow, hrowp, hau]
  · rw [lookupA_setA_ne hupb] at hrowt
    by_cases hau : a = u
    · subst hau
      by_cases hbp : b = pb
      · subst hbp
        simp [lookupA_setA, lookupA_bumpRow, hrowp, hrowt, hupb]
        ring
      · simp [lookupA_setA, lookupA_bumpRow, hrowp, hrowt, hupb, hbp]
    · by_cases hap : a = pb
      · subst hap
        by_cases hbu : b = u
        · subst hbu
          simp [lookupA_setA, lookupA_bumpRow, hrowp, hau, Ne.symm hupb]
        · simp [lookupA_setA, lookupA_bumpRow, hrowp, hau, hbu, Ne.symm hupb]
      · simp [lookupA_setA, hau, hap]

theorem isSome_pair_step {s : MState} {pb u : String}
    (hp : (lookupA pb s.balance_sheet).isSome = true)
    (hu : (lookupA u s.balance_sheet).isSome = true)
    (r1 r2 : List (String × ℚ)) (k : String) :
    (lookupA k (setA u r2 (setA pb r1 s.balance_sheet))).isSome
      = (lookupA k s.balance_sheet).isSome := by
  have h1 : ∀ k', (lookupA k' (setA pb r1 s.balance_sheet)).isSome
      = (lookupA k' s.balance_sheet).isSome := isSome_lookupA_setA_of_isSome hp r1
  have h2 : (lookupA u (setA pb r1 s.balance_sheet)).isSome = true := (h1 u).trans hu
  exact (isSome_lookupA_setA_of_isSome h2 r2 k).trans (h1 k)

theorem applyLoop_cons_eq {s : MState} {pb : String} {sp : Split} {rest : List Split}
    {rowp rowt : List (String × ℚ)}
    (hrowp : lookupA pb s.balance_sheet = some rowp)
    (hrowt : lookupA sp.user.id (setA pb (bumpRow rowp sp.user.id sp.amount) s.balance_sheet) = some rowt) :
    applyLoop pb s (sp :: rest) =
      applyLoop pb
        { s with balance_sheet := setA sp.user.id (bumpRow rowt pb (-sp.amount))
                                    (setA pb (bumpRow rowp sp.user.id sp.amount) s.balance_sheet) }
        rest := by
  simp only [applyLoop, hrowp, hrowt]

theorem sumFor_cons (u : String) (sp : Split) (rest : List Split) :
    sumFor u (sp :: rest) = (if u = sp.user.id then sp.amount else 0) + sumFor u rest := by
  simp only [sumFor, List.map_cons, List.sum_cons]
  congr 1
  by_cases h : u = sp.user.id
  · subst h
    simp
  · simp [h, Ne.symm h]

theorem applyLoop_spec (pb : String) (splits : List Split) :
    ∀ s : MState, (lookupA pb s.balance_sheet).isSome = true →
      (∀ sp ∈ splits, (lookupA sp.user.id s.balance_sheet).isSome = true) →
      (applyLoop pb s splits).2 = AddOutcome.ok ∧
      (applyLoop pb s splits).1.expenses = s.expenses ∧
      (applyLoop pb s splits).1.user_map = s.user_map ∧
      (∀ k, (lookupA k (applyLoop pb s splits).1.balance_sheet).isSome
          = (lookupA k s.balance_sheet).isSome) ∧
      (∀ a b, getBal (applyLoop pb s splits).1 a b
          = getBal s a b + (if a = pb then sumFor b splits else 0)
              - (if b = pb then sumFor a splits else 0)) := by
  induction splits with
  | nil =>
      intro s hp hs
      refine ⟨rfl, rfl, rfl, fun k => rfl, fun a b => ?_⟩
      have h0 : applyLoop pb s [] = (s, AddOutcome.ok) := rfl
      rw [h0]
      simp only [sumFor, List.map_nil, List.sum_nil, ite_self]
      ring
  | cons sp rest ih =>
      intro s hp hs
      obtain ⟨rowp, hrowp⟩ := Option.isSome_iff_exists.mp hp
      have hu : (lookupA sp.user.id s.balance_sheet).isSome = true :=
        hs sp (List.mem_cons_self sp rest)
      have hu1 : (lookupA sp.user.id
          (setA pb (bumpRow rowp sp.user.id sp.amount) s.balance_sheet)).isSome = true := by
        rw [isSome_lookupA_setA_of_isSome hp]
        exact hu
      obtain ⟨rowt, hrowt⟩ := Option.isSome_iff_exists.mp hu1
      have heq : applyLoop pb s (sp :: rest) =
          applyLoop pb
            { s with balance_sheet := setA sp.user.id (bumpRow rowt pb (-sp.amount))
                                        (setA pb (bumpRow rowp sp.user.id sp.amount) s.balance_sheet) }
            rest := applyLoop_cons_eq hrowp hrowt
      have hkeys : ∀ k,
          (lookupA k (setA sp.user.id (bumpRow rowt pb (-sp.amount))
              (setA pb (bumpRow rowp sp.user.id sp.amount) s.balance_sheet))).isSome
            = (lookupA k s.balance_sheet).isSome :=
        fun k => isSome_pair_step hp hu _ _ k
      have hp2 : (lookupA pb (setA sp.user.id (bumpRow rowt pb (-sp.amount))
          (setA pb (bumpRow rowp sp.user.id sp.amount) s.balance_sheet))).isSome = true :=
        (hkeys pb).trans hp
      have hs2' : ∀ sp' ∈ rest,
          (lookupA sp'.user.id (setA sp.user.id (bumpRow rowt pb (-sp.amount))
              (setA pb (bumpRow rowp sp.user.id sp.amount) s.balance_sheet))).isSome = true :=
        fun sp' h => (hkeys _).trans (hs sp' (List.mem_cons_of_mem sp h))
      obtain ⟨ho, he, hum, hk, hg⟩ :=
        ih { s with balance_sheet := setA sp.user.id (bumpRow rowt pb (-sp.amount))
                      (setA pb (bumpRow rowp sp.user.id sp.amount) s.balance_sheet) } hp2 hs2'
      rw [heq]
      refine ⟨ho, he, hum, fun k => (hk k).trans (hkeys k), fun a b => ?_⟩
      rw [hg a b, getBal_pair_step s pb sp.user.id sp.amount rowp rowt hrowp hrowt a b,
        sumFor_cons, sumFor_cons]
      clear ih hs hg hk he hum ho heq hkeys hp2 hs2' hu1 hrowt hrowp hu hp
      split_ifs <;> first | ring1 | (exfalso; tauto)


/-! ### Factory validation lemmas -/

theorem validate_exact_iff (amount : ℚ) (p : User) (l : List Split) (m : Option ExpenseMetadata) :
    validate { etype := ExpenseType.EXACT, amount := amount, paid_by := p,
               splits := l, metadata := m } = true
      ↔ ((∀ sp ∈ l, sp.kind = SplitKind.exact) ∧ |sumAmounts l - amount| < 1/100) := by
  simp [validate, List.all_eq_true]

theorem validate_percent_iff (amount : ℚ) (p : User) (l : List Split) (m : Option ExpenseMetadata) :
    validate { etype := ExpenseType.PERCENT, amount := amount, paid_by := p,
               splits := l, metadata := m } = true
      ↔ ((∀ sp ∈ l, sp.kind = SplitKind.percent) ∧ |sumPercents l - 100| < 1/100) := by
  simp [validate, List.all_eq_true]

theorem create_exact_accept_iff (amount : ℚ) (p : User) (l : List Split)
    (m : Option ExpenseMetadata) :
    (∃ e, create_expense (some ExpenseType.EXACT) amount p l m = Except.ok (some e))
      ↔ ((∀ sp ∈ l, sp.kind = SplitKind.exact) ∧ |sumAmounts l - amount| < 1/100) := by
  rw [← validate_exact_iff amount p l m]
  simp only [create_expense, acceptIfValid]
  by_cases h : validate { etype := ExpenseType.EXACT, amount := amount, paid_by := p, splits := l, metadata := m } = true
  · simp [h]
  · simp [h]

theorem create_exact_reject {amount : ℚ} {l : List Split}
    (h : ¬((∀ sp ∈ l, sp.kind = SplitKind.exact) ∧ |sumAmounts l - amount| < 1/100))
    (p : User) (m : Option ExpenseMetadata) :
    create_expense (some ExpenseType.EXACT) amount p l m = Except.ok none := by
  have hv : ¬ validate { etype := ExpenseType.EXACT, amount := amount, paid_by := p, splits := l, metadata := m } = true :=
    fun hv => h ((validate_exact_iff amount p l m).mp hv)
  simp [create_expense, acceptIfValid, hv]

theorem add_expense_no_mutation {t : Option ExpenseType} {amount : ℚ} {splits : List Split}
    {md : Option ExpenseMetadata}
    (h : ∀ u : User, create_expense t amount u splits md = Except.ok none)
    (s : MState) (pb : String) :
    (add_expense s t amount pb splits md).1 = s ∧
      (add_expense s t amount pb splits md).2 ≠ AddOutcome.ok := by
  simp only [add_expense]
  cases hL : lookupA pb s.user_map with
  | none => simp
  | some u => simp [h u]

theorem percentSplits_kind (amount : ℚ) (sp : Split) :
    (if sp.kind = SplitKind.percent then { sp with amount := amount * sp.percent / 100 }
     else sp).kind = sp.kind := by
  split_ifs <;> rfl

theorem percentSplits_percent (amount : ℚ) (sp : Split) :
    (if sp.kind = SplitKind.percent then { sp with amount := amount * sp.percent / 100 }
     else sp).percent = sp.percent := by
  split_ifs <;> rfl

theorem sumPercents_percentSplits (amount : ℚ) (l : List Split) :
    sumPercents (percentSplits amount l) = sumPercents l := by
  simp only [sumPercents, percentSplits, List.map_map]
  congr 1
  apply List.map_congr_left
  intro sp _
  simp only [Function.comp]
  exact percentSplits_percent amount sp

theorem allPercent_percentSplits (amount : ℚ) (l : List Split) :
    (∀ sp ∈ percentSplits amount l, sp.kind = SplitKind.percent)
      ↔ (∀ sp ∈ l, sp.kind = SplitKind.percent) := by
  constructor
  · intro h sp hsp
    have := h _ (List.mem_map_of_mem _ hsp)
    rwa [percentSplits_kind] at this
  · intro h sp hsp
    obtain ⟨sp0, h0, rfl⟩ := List.mem_map.mp hsp
    rw [percentSplits_kind]
    exact h sp0 h0

theorem create_percent_accept_iff (amount : ℚ) (p : User) (l : List Split)
    (m : Option ExpenseMetadata) :
    (∃ e, create_expense (some ExpenseType.PERCENT) amount p l m = Except.ok (some e))
      ↔ ((∀ sp ∈ l, sp.kind = SplitKind.percent) ∧ |sumPercents l - 100| < 1/100) := by
  rw [← allPercent_percentSplits amount l, ← sumPercents_percentSplits amount l,
    ← validate_percent_iff amount p (percentSplits amount l) m]
  simp only [create_expense, acceptIfValid]
  by_cases h : validate { etype := ExpenseType.PERCENT, amount := amount, paid_by := p, splits := percentSplits amount l, metadata := m } = true
  · simp [h]
  · simp [h]

theorem create_percent_shares {amount : ℚ} {p : User} {l : List Split}
    {m : Option ExpenseMetadata} {e : Expense}
    (he : create_expense (some ExpenseType.PERCENT) amount p l m = Except.ok (some e)) :
    ∀ sp ∈ e.splits, sp.kind = SplitKind.percent ∧ sp.amount = amount * sp.percent / 100 := by
  simp only [create_expense, acceptIfValid] at he
  by_cases h : validate { etype := ExpenseType.PERCENT, amount := amount, paid_by := p, splits := percentSplits amount l, metadata := m } = true
  · rw [if_pos h] at he
    injection he with he1
    injection he1 with he2
    subst he2
    intro sp hsp
    have hall := ((validate_percent_iff amount p (percentSplits amount l) m).mp h).1 sp hsp
    obtain ⟨sp0, h0, rfl⟩ := List.mem_map.mp hsp
    have hk : sp0.kind = SplitKind.percent := by
      have := hall
      rwa [percentSplits_kind] at this
    refine ⟨hall, ?_⟩
    simp [hk]
  · rw [if_neg h] at he
    cases he


/-! ### Equal-split and filter lemmas -/

theorem sum_map_const_rat (l : List Split) (r : ℚ) :
    (l.map fun _ => r).sum = (l.length : ℚ) * r := by
  induction l with
  | nil => simp
  | cons sp rest ih =>
      simp [ih]
      ring

theorem equalSplits_amounts (amount : ℚ) (first : Split) (rest : List Split) :
    (equalSplits amount (first :: rest)).map Split.amount
      = (eqShare amount (first :: rest).length
            + (amount - eqShare amount (first :: rest).length * ((first :: rest).length : ℚ)))
          :: rest.map fun _ => eqShare amount (first :: rest).length := by
  simp only [equalSplits, List.map_cons, List.map_map]
  rfl

theorem equalSplits_sum (amount : ℚ) (first : Split) (rest : List Split) :
    sumAmounts (equalSplits amount (first :: rest)) = amount := by
  rw [sumAmounts, equalSplits_amounts, List.sum_cons, sum_map_const_rat]
  push_cast [List.length_cons]
  ring

theorem sumFor_filter_not_payer {pb v : String} (h : ¬ v = pb) (splits : List Split) :
    sumFor v (splits.filter fun sp => !(sp.user.id == pb)) = sumFor v splits := by
  induction splits with
  | nil => rfl
  | cons sp rest ih =>
      by_cases hu : sp.user.id = pb
      · rw [sumFor_cons]
        simp [List.filter_cons, hu, ih, h]
      · have hb : (!(sp.user.id == pb)) = true := by simp [hu]
        simp only [List.filter_cons, hb, if_true]
        rw [sumFor_cons, sumFor_cons, ih]


/-! ### Balance-report lemmas -/

theorem lookupA_mem_of_eq_some {α : Type} {l : List (String × α)} {k : String} {v : α}
    (h : lookupA k l = some v) : (k, v) ∈ l := by
  induction l with
  | nil => simp [lookupA] at h
  | cons p rest ih =>
      rw [lookupA] at h
      by_cases hk : k = p.1
      · rw [if_pos hk] at h
        injection h with h
        have he : (k, v) = p := by rw [hk, ← h]
        rw [he]
        exact List.mem_cons_self p rest
      · rw [if_neg hk] at h
        exact List.mem_cons_of_mem p (ih h)

theorem lookupA_eq_some_of_mem {α : Type} {l : List (String × α)}
    (hnd : (l.map Prod.fst).Nodup) {k : String} {v : α} (h : (k, v) ∈ l) :
    lookupA k l = some v := by
  induction l with
  | nil => simp at h
  | cons p rest ih =>
      rw [List.map_cons, List.nodup_cons] at hnd
      rcases List.mem_cons.mp h with h0 | h0
      · rw [lookupA, if_pos (by rw [← h0]), ← h0]
      · have hk : ¬ k = p.1 := by
          intro he
          exact hnd.1 (he ▸ List.mem_map_of_mem Prod.fst h0)
        rw [lookupA, if_neg hk]
        exact ih hnd.2 h0

theorem mem_seg_fst {k : String} {row : List (String × ℚ)} {x : String × String × ℚ}
    (h : x ∈ (row.filter fun q => decide (0 < q.2)).map fun q => (k, q.1, q.2)) :
    x.1 = k := by
  obtain ⟨q, _, rfl⟩ := List.mem_map.mp h
  rfl

theorem mem_entries_fst {sheet : List (String × List (String × ℚ))} {x : String × String × ℚ}
    (h : x ∈ (sheet.map fun p =>
        (p.2.filter fun q => decide (0 < q.2)).map fun q => (p.1, q.1, q.2)).flatten) :
    x.1 ∈ sheet.map Prod.fst := by
  obtain ⟨seg, hseg, hx⟩ := List.mem_flatten.mp h
  obtain ⟨p, hp, rfl⟩ := List.mem_map.mp hseg
  rw [mem_seg_fst hx]
  exact List.mem_map_of_mem Prod.fst hp

theorem nodup_entries : ∀ sheet : List (String × List (String × ℚ)),
    (sheet.map Prod.fst).Nodup →
    (∀ p ∈ sheet, (p.2.map Prod.fst).Nodup) →
    ((sheet.map fun p =>
        (p.2.filter fun q => decide (0 < q.2)).map fun q => (p.1, q.1, q.2)).flatten).Nodup := by
  intro sheet
  induction sheet with
  | nil =>
      intro _ _
      simp
  | cons p rest ih =>
      intro hnd hrows
      rw [List.map_cons, List.nodup_cons] at hnd
      rw [List.map_cons, List.flatten_cons, List.nodup_append]
      refine ⟨?_, ih hnd.2 fun q hq => hrows q (List.mem_cons_of_mem p hq), ?_⟩
      · have hrow : p.2.Nodup := (hrows p (List.mem_cons_self p rest)).of_map _
        refine (hrow.filter _).map ?_
        intro q q' he
        have h1 : q.1 = q'.1 := congrArg (fun t => t.2.1) he
        have h2 : q.2 = q'.2 := congrArg (fun t => t.2.2) he
        exact Prod.ext h1 h2
      · intro x hx hx'
        have h1 : x.1 = p.1 := mem_seg_fst hx
        have h2 : x.1 ∈ rest.map Prod.fst := mem_entries_fst hx'
        exact hnd.1 (h1 ▸ h2)

theorem mem_show_balance_global {s : MState} (hwf : wfState s) (a b : String) (v : ℚ) :
    (a, b, v) ∈ show_balance_global s ↔ getBal s a b = v ∧ 0 < v := by
  obtain ⟨hnd, hrows⟩ := hwf
  constructor
  · intro hm
    rw [show_balance_global] at hm
    obtain ⟨seg, hseg, hx⟩ := List.mem_flatten.mp hm
    obtain ⟨p, hp, rfl⟩ := List.mem_map.mp hseg
    obtain ⟨q, hq, heq⟩ := List.mem_map.mp hx
    obtain ⟨hq2, hqpos⟩ := List.mem_filter.mp hq
    have h1 : p.1 = a := congrArg Prod.fst heq
    have h2 : q.1 = b := congrArg (fun t => t.2.1) heq
    have h3 : q.2 = v := congrArg (fun t => t.2.2) heq
    have hrowA : lookupA a s.balance_sheet = some p.2 := by
      apply lookupA_eq_some_of_mem hnd
      rw [← h1]
      exact hp
    have hentry : lookupA b p.2 = some v := by
      apply lookupA_eq_some_of_mem (hrows p hp)
      rw [← h2, ← h3]
      exact hq2
    refine ⟨?_, ?_⟩
    · rw [getBal, rowOf, hrowA]
      simp [hentry]
    · rw [← h3]
      exact of_decide_eq_true hqpos
  · rintro ⟨hv, hpos⟩
    cases hrow : lookupA a s.balance_sheet with
    | none =>
        exfalso
        rw [getBal, rowOf, hrow] at hv
        simp only [Option.getD_none, lookupA] at hv
        rw [← hv] at hpos
        exact lt_irrefl 0 hpos
    | some row =>
        cases hentry : lookupA b row with
        | none =>
            exfalso
            rw [getBal, rowOf, hrow] at hv
            simp only [Option.getD_some, hentry, Option.getD_none] at hv
            rw [← hv] at hpos
            exact lt_irrefl 0 hpos
        | some v' =>
            have hv' : v' = v := by
              rw [getBal, rowOf, hrow] at hv
              simpa [hentry] using hv
            subst hv'
            rw [show_balance_global]
            apply List.mem_flatten.mpr
            refine ⟨(row.filter fun q => decide (0 < q.2)).map fun q => (a, q.1, q.2), ?_, ?_⟩
            · apply List.mem_map.mpr
              exact ⟨(a, row), lookupA_mem_of_eq_some hrow, rfl⟩
            · apply List.mem_map.mpr
              refine ⟨(b, v'), ?_, rfl⟩
              apply List.mem_filter.mpr
              exact ⟨lookupA_mem_of_eq_some hentry, decide_eq_true hpos⟩


/-! ### Claim theorems -/

/-- C1: the claim says a `record_expense` call that fails on an unknown user
id leaves the ledger uncorrupted (no expense appended, no balance entry
changed).  The code violates this: with only `u1` registered, an exact
expense paid by `u1` with a split for the unregistered `u2` raises
`KeyError` only after the expense has been appended to the log and
`balance_sheet["u1"]["u2"]` has already been incremented to `10`. -/
theorem c1_unknown_split_user_partial_write :
    (add_expense (add_user initState u1) (some ExpenseType.EXACT) 10 "u1"
        [mkExactSplit u2 10] none).2 = AddOutcome.raised PyError.keyError
    ∧ (add_expense (add_user initState u1) (some ExpenseType.EXACT) 10 "u1"
        [mkExactSplit u2 10] none).1.expenses ≠ []
    ∧ getBal (add_expense (add_user initState u1) (some ExpenseType.EXACT) 10 "u1"
        [mkExactSplit u2 10] none).1 "u1" "u2" = 10 := by
  simp [add_user, initState, add_expense, lookupA, setA, create_expense, acceptIfValid,
    validate, sumAmounts, mkExactSplit, u1, u2, applyLoop, bumpRow, rowOf, getBal]

/-- C2: the claim says re-registering a user overwrites the identity record
but leaves that user's existing balance entries unchanged.  The code
violates this: after `opsRereg` (which re-adds `u2` when
`balance_sheet["u2"] = {"u1": -10}`), `add_user` has reset `u2`'s balance
row to the empty dict. -/
theorem c2_rereg_clears_balance_row :
    lookupA "u2" (runOps (opsRereg.take 3)).balance_sheet = some [("u1", -10)]
    ∧ lookupA "u2" (runOps opsRereg).balance_sheet = some ([] : List (String × ℚ))
    ∧ getBal (runOps (opsRereg.take 3)) "u2" "u1" = -10
    ∧ getBal (runOps opsRereg) "u2" "u1" = 0 := by
  simp [opsRereg, runOps, run_op, add_user, initState, add_expense, lookupA, setA,
    create_expense, acceptIfValid, validate, sumAmounts, mkExactSplit, u1, u2,
    applyLoop, bumpRow, rowOf, getBal, List.take]

/-- C3: the claim says `balance[A][B] = -balance[B][A]` holds in every state
reachable by `add_user` / `add_expense` operations from the empty ledger.
The code violates this: after the reachable sequence `opsRereg`,
`balance["u1"]["u2"] = 10` while `balance["u2"]["u1"]` reads as `0` (its
entry was wiped by the re-registration), so antisymmetry fails. -/
theorem c3_antisymmetry_violated_on_reachable_state :
    getBal (runOps opsRereg) "u1" "u2" = 10
    ∧ getBal (runOps opsRereg) "u2" "u1" = 0
    ∧ ¬ antisymmetric (runOps opsRereg) := by
  have h1 : getBal (runOps opsRereg) "u1" "u2" = 10 := by
    simp [opsRereg, runOps, run_op, add_user, initState, add_expense, lookupA, setA,
      create_expense, acceptIfValid, validate, sumAmounts, mkExactSplit, u1, u2,
      applyLoop, bumpRow, rowOf, getBal]
  have h2 : getBal (runOps opsRereg) "u2" "u1" = 0 := by
    simp [opsRereg, runOps, run_op, add_user, initState, add_expense, lookupA, setA,
      create_expense, acceptIfValid, validate, sumAmounts, mkExactSplit, u1, u2,
      applyLoop, bumpRow, rowOf, getBal]
  refine ⟨h1, h2, fun h => ?_⟩
  have h3 := h "u1" "u2"
  rw [h1, h2] at h3
  norm_num at h3

/-- Witness for C1: the failing call's outcome is the propagated
`KeyError`. -/
theorem c1_witness :
    (add_expense (add_user initState u1) (some ExpenseType.EXACT) 10 "u1"
        [mkExactSplit u2 10] none).2 = AddOutcome.raised PyError.keyError :=
  c1_unknown_split_user_partial_write.1

/-- Witness for C3: a positive stale entry survives in the reachable
violating state. -/
theorem c3_witness : getBal (runOps opsRereg) "u1" "u2" = 10 :=
  c3_antisymmetry_violated_on_reachable_state.1

/-- C4: for every non-negative total amount and non-empty split list, the
equal-split computation gives every participant the rounded share
`round(amount*100/n)/100` and adds the leftover remainder to the first
participant, so the computed share amounts sum to the total exactly; in
particular every `EQUAL` expense accepted by the factory has shares summing
to its total. -/
theorem c4_equal_split_exact :
    ∀ (amount : ℚ) (splits : List Split), splits ≠ [] → 0 ≤ amount →
      ((equalSplits amount splits).map Split.amount
          = (eqShare amount splits.length
                + (amount - eqShare amount splits.length * (splits.length : ℚ)))
              :: splits.tail.map fun _ => eqShare amount splits.length)
      ∧ sumAmounts (equalSplits amount splits) = amount
      ∧ ∀ (p : User) (m : Option ExpenseMetadata) (e : Expense),
          create_expense (some ExpenseType.EQUAL) amount p splits m = Except.ok (some e) →
          sumAmounts e.splits = amount := by
  intro amount splits hne _hnn
  cases splits with
  | nil => exact absurd rfl hne
  | cons first rest =>
      refine ⟨equalSplits_amounts amount first rest, equalSplits_sum amount first rest, ?_⟩
      intro p m e he
      simp only [create_expense, acceptIfValid] at he
      by_cases h : validate { etype := ExpenseType.EQUAL, amount := amount, paid_by := p, splits := equalSplits amount (first :: rest), metadata := m } = true
      · rw [if_pos h] at he
        injection he with he1
        injection he1 with he2
        rw [← he2]
        exact equalSplits_sum amount first rest
      · rw [if_neg h] at he
        cases he

/-- Witness for C4 at the spec's own example: an `EQUAL` expense of `100`
over three participants gives shares `33.34, 33.33, 33.33`, summing to
`100` exactly. -/
theorem c4_witness :
    sumAmounts (equalSplits 100 [mkEqualSplit u1, mkEqualSplit u2, mkEqualSplit u3]) = 100 :=
  (c4_equal_split_exact 100 [mkEqualSplit u1, mkEqualSplit u2, mkEqualSplit u3]
    (by simp) (by norm_num)).2.1

/-- C5 counterexample: the claim says an exact expense whose supplied
amounts differ from the total by exactly `0.01` is accepted.  The code
rejects it: all splits are exact-strategy and the difference is exactly
`0.01`, yet `create_expense` returns the rejection value `None`. -/
theorem c5_counterexample_boundary_rejected :
    (mkExactSplit u1 (201/100)).kind = SplitKind.exact
    ∧ |sumAmounts [mkExactSplit u1 (201/100)] - 2| = 1/100
    ∧ create_expense (some ExpenseType.EXACT) 2 u1 [mkExactSplit u1 (201/100)] none
        = Except.ok none := by
  refine ⟨rfl, ?_, ?_⟩
  · norm_num [sumAmounts, mkExactSplit, abs]
  · norm_num [create_expense, acceptIfValid, validate, sumAmounts, mkExactSplit, abs]

/-- C5 (amended): an `EXACT` expense request is accepted iff every split is
exact-strategy and the supplied amounts differ from the total by strictly
less than `0.01` (the boundary case `0.01` is rejected); whenever that
condition fails, `add_expense` leaves the manager state completely
unchanged and does not commit. -/
theorem c5_exact_accept_iff_strict :
    ∀ (amount : ℚ) (p : User) (splits : List Split) (m : Option ExpenseMetadata),
      ((∃ e, create_expense (some ExpenseType.EXACT) amount p splits m = Except.ok (some e))
        ↔ ((∀ sp ∈ splits, sp.kind = SplitKind.exact) ∧ |sumAmounts splits - amount| < 1/100))
      ∧ (¬((∀ sp ∈ splits, sp.kind = SplitKind.exact) ∧ |sumAmounts splits - amount| < 1/100) →
          ∀ (s : MState) (pb : String),
            (add_expense s (some ExpenseType.EXACT) amount pb splits m).1 = s
            ∧ (add_expense s (some ExpenseType.EXACT) amount pb splits m).2 ≠ AddOutcome.ok) := by
  intro amount p splits m
  exact ⟨create_exact_accept_iff amount p splits m,
    fun h s pb => add_expense_no_mutation (fun u => create_exact_reject h u m) s pb⟩

/-- Witness for C5: at the boundary input (difference exactly `0.01`), the
manager state is untouched by the call. -/
theorem c5_witness :
    (add_expense initState (some ExpenseType.EXACT) 2 "u1" [mkExactSplit u1 (201/100)] none).1
      = initState :=
  ((c5_exact_accept_iff_strict 2 u1 [mkExactSplit u1 (201/100)] none).2
    (by norm_num [sumAmounts, mkExactSplit, abs]) initState "u1").1

/-- C6: a `PERCENT` expense request is accepted iff every split is
percent-strategy and the supplied percents sum to `100` within the `0.01`
tolerance; validation reads only the percent inputs (acceptance is
independent of the total amount), and every split of an accepted percent
expense carries the derived share `amount * percent / 100`. -/
theorem c6_percent_validation :
    ∀ (amount : ℚ) (p : User) (splits : List Split) (m : Option ExpenseMetadata),
      ((∃ e, create_expense (some ExpenseType.PERCENT) amount p splits m = Except.ok (some e))
        ↔ ((∀ sp ∈ splits, sp.kind = SplitKind.percent) ∧ |sumPercents splits - 100| < 1/100))
      ∧ (∀ e, create_expense (some ExpenseType.PERCENT) amount p splits m = Except.ok (some e) →
          ∀ sp ∈ e.splits, sp.amount = amount * sp.percent / 100)
      ∧ (∀ amount' : ℚ,
          ((∃ e, create_expense (some ExpenseType.PERCENT) amount p splits m = Except.ok (some e))
            ↔ (∃ e, create_expense (some ExpenseType.PERCENT) amount' p splits m = Except.ok (some e)))) := by
  intro amount p splits m
  refine ⟨create_percent_accept_iff amount p splits m,
    fun e he sp hsp => (create_percent_shares he sp hsp).2,
    fun amount' => (create_percent_accept_iff amount p splits m).trans
      (create_percent_accept_iff amount' p splits m).symm⟩

/-- Witness for C6: a `60 / 40` percent split of `50` is accepted, and its
first split carries the derived share `50 * 60 / 100 = 30`. -/
theorem c6_witness :
    ({ user := u1, kind := SplitKind.percent, amount := 50 * 60 / 100, percent := 60 } : Split).amount
      = 50 * ({ user := u1, kind := SplitKind.percent, amount := 50 * 60 / 100, percent := 60 } : Split).percent / 100 := by
  refine (c6_percent_validation 50 u1 [mkPercentSplit u1 60, mkPercentSplit u2 40] none).2.1
    { etype := ExpenseType.PERCENT, amount := 50, paid_by := u1, splits := percentSplits 50 [mkPercentSplit u1 60, mkPercentSplit u2 40], metadata := none }
    ?_ _ ?_
  · norm_num [create_expense, acceptIfValid, validate, sumPercents, mkPercentSplit, percentSplits]
  · simp [percentSplits, mkPercentSplit]

/-- C7 counterexample: the claim says a negative total amount or a negative
exact input amount causes rejection.  The code performs no sign check: an
exact expense with total `-10` and a single exact split of `-10` is
accepted (the factory returns the expense, not a rejection). -/
theorem c7_counterexample_negative_accepted :
    create_expense (some ExpenseType.EXACT) (-10) u1 [mkExactSplit u1 (-10)] none
      = Except.ok (some
          { etype := ExpenseType.EXACT, amount := -10, paid_by := u1,
            splits := [mkExactSplit u1 (-10)], metadata := none }) := by
  norm_num [create_expense, acceptIfValid, validate, sumAmounts, mkExactSplit]

/-- C7 (amended): a strategy kind outside the `ExpenseType` enum is rejected
immediately (the factory returns the rejection value with no share
computation), but negative totals, percents and exact input amounts are not
checked and do not by themselves cause rejection. -/
theorem c7_unknown_kind_rejected_negatives_unchecked :
    (∀ (amount : ℚ) (p : User) (splits : List Split) (m : Option ExpenseMetadata),
        create_expense none amount p splits m = Except.ok none)
    ∧ create_expense (some ExpenseType.EXACT) (-10) u2 [mkExactSplit u2 (-10)] none
        ≠ Except.ok none := by
  refine ⟨fun amount p splits m => rfl, fun h => ?_⟩
  have he : create_expense (some ExpenseType.EXACT) (-10) u2 [mkExactSplit u2 (-10)] none = Except.ok (some { etype := ExpenseType.EXACT, amount := -10, paid_by := u2, splits := [mkExactSplit u2 (-10)], metadata := none }) := by
    norm_num [create_expense, acceptIfValid, validate, sumAmounts, mkExactSplit]
  rw [he] at h
  injection h with h2
  exact Option.noConfusion h2

/-- C10: calling the factory with `EQUAL` and an empty split list raises the
division error (Python divides by the zero split count before anything
else), instead of returning the rejection value; with a non-empty split
list the `EQUAL` branch never raises. -/
theorem c10_equal_empty_raises :
    (∀ (amount : ℚ) (p : User) (m : Option ExpenseMetadata),
        create_expense (some ExpenseType.EQUAL) amount p [] m
          = Except.error PyError.divisionByZero)
    ∧ (∀ (amount : ℚ) (p : User) (splits : List Split) (m : Option ExpenseMetadata),
        splits ≠ [] →
        (create_expense (some ExpenseType.EQUAL) amount p splits m).isOk = true) := by
  refine ⟨fun amount p m => rfl, fun amount p splits m hne => ?_⟩
  cases splits with
  | nil => exact absurd rfl hne
  | cons first rest => rfl

/-- Witness for C10: with one participant the `EQUAL` factory call returns
normally. -/
theorem c10_witness :
    (create_expense (some ExpenseType.EQUAL) 100 u1 [mkEqualSplit u2] none).isOk = true :=
  c10_equal_empty_raises.2 100 u1 [mkEqualSplit u2] none (by simp)

/-- Witness for C7: a call with a strategy kind outside the enum returns
the rejection value at a concrete input. -/
theorem c7_witness : create_expense none (-5) u3 [] none = Except.ok none :=
  c7_unknown_kind_rejected_negatives_unchecked.1 (-5) u3 [] none

/-- C8: for an expense whose payer also appears as a participant (all
referenced users having balance rows), the balance-update loop completes
normally (the self-split is neither rejected nor special-cased), the
payer-to-self entry receives a net change of zero, and every balance entry
between distinct users changes exactly as it would had the loop run on the
other participants alone. -/
theorem c8_self_split_neutral :
    ∀ (s : MState) (pb : String) (splits : List Split),
      (lookupA pb s.balance_sheet).isSome = true →
      (∀ sp ∈ splits, (lookupA sp.user.id s.balance_sheet).isSome = true) →
      (∃ sp ∈ splits, sp.user.id = pb) →
      (applyLoop pb s splits).2 = AddOutcome.ok
      ∧ getBal (applyLoop pb s splits).1 pb pb = getBal s pb pb
      ∧ ∀ a b, ¬ a = b →
          getBal (applyLoop pb s splits).1 a b
            = getBal (applyLoop pb s (splits.filter fun sp => !(sp.user.id == pb))).1 a b := by
  intro s pb splits hp hs _hself
  obtain ⟨ho, _, _, _, hg⟩ := applyLoop_spec pb splits s hp hs
  have hsF : ∀ sp ∈ splits.filter fun sp => !(sp.user.id == pb),
      (lookupA sp.user.id s.balance_sheet).isSome = true :=
    fun sp hsp => hs sp (List.mem_of_mem_filter hsp)
  obtain ⟨_, _, _, _, hgF⟩ :=
    applyLoop_spec pb (splits.filter fun sp => !(sp.user.id == pb)) s hp hsF
  refine ⟨ho, ?_, ?_⟩
  · rw [hg pb pb]
    simp
  · intro a b hab
    rw [hg a b, hgF a b]
    by_cases hap : a = pb
    · have hbp : ¬ b = pb := fun hh => hab (hap.trans hh.symm)
      rw [sumFor_filter_not_payer hbp]
      simp [hbp]
    · by_cases hbp : b = pb
      · rw [sumFor_filter_not_payer hap]
        simp [hap]
      · simp [hap, hbp]

/-- Witness for C8: with `u1` and `u2` registered, a loop over an exact
split list containing a self-split for the payer `u1` completes normally. -/
theorem c8_witness :
    (applyLoop "u1" (add_user (add_user initState u1) u2)
        [mkExactSplit u1 5, mkExactSplit u2 5]).2 = AddOutcome.ok :=
  (c8_self_split_neutral (add_user (add_user initState u1) u2) "u1"
      [mkExactSplit u1 5, mkExactSplit u2 5]
      (by simp [add_user, initState, setA, lookupA, u1, u2])
      (by simp [add_user, initState, setA, lookupA, u1, u2, mkExactSplit])
      ⟨mkExactSplit u1 5, by simp, rfl⟩).1

/-- C9: in any well-formed ledger state where antisymmetry holds, the
global balance query reports exactly the strictly positive entries of the
balance sheet, with no duplicates; consequently each unordered pair with a
nonzero net balance is reported exactly once, from the positive side only,
and the "No balances" message (empty report) appears exactly when no entry
is positive. -/
theorem c9_global_balance_report :
    ∀ s : MState, wfState s → antisymmetric s →
      (show_balance_global s).Nodup
      ∧ (∀ a b v, (a, b, v) ∈ show_balance_global s ↔ (getBal s a b = v ∧ 0 < v))
      ∧ (∀ a b, ¬ a = b → 0 < getBal s a b →
           ((a, b, getBal s a b) ∈ show_balance_global s
             ∧ ∀ v, (b, a, v) ∉ show_balance_global s))
      ∧ (show_balance_global s = [] ↔ ∀ a b, getBal s a b ≤ 0) := by
  intro s hwf hanti
  refine ⟨nodup_entries s.balance_sheet hwf.1 hwf.2,
    fun a b v => mem_show_balance_global hwf a b v, ?_, ?_⟩
  · intro a b _hab hpos
    refine ⟨(mem_show_balance_global hwf a b _).mpr ⟨rfl, hpos⟩, fun v hv => ?_⟩
    obtain ⟨hba, hvpos⟩ := (mem_show_balance_global hwf b a v).mp hv
    rw [hanti a b, hba] at hpos
    linarith
  · constructor
    · intro hnil a b
      by_contra hlt
      push_neg at hlt
      have hm := (mem_show_balance_global hwf a b _).mpr ⟨rfl, hlt⟩
      rw [hnil] at hm
      exact absurd hm (List.not_mem_nil _)
    · intro hall
      by_contra hne
      obtain ⟨x, hx⟩ := List.exists_mem_of_ne_nil _ hne
      obtain ⟨a, b, v⟩ := x
      obtain ⟨hv, hpos⟩ := (mem_show_balance_global hwf a b v).mp hx
      have := hall a b
      rw [hv] at this
      linarith

/-- Witness for C9 at the freshly initialised manager: its global report is
duplicate-free (and empty). -/
theorem c9_witness : (show_balance_global initState).Nodup :=
  (c9_global_balance_report initState
    ⟨by simp [initState], by simp [initState]⟩
    (fun a b => by simp [antisymmetric, getBal, rowOf, initState, lookupA])).1


end Splitwise
